import Mathlib

/-!
Verification development for `team_portrait_to_gcal_csv.py` (nuliga-to-cal).

The Python source is shallowly embedded: pure helpers become Lean functions on
`List Char` / `String`, the `requests`/`BeautifulSoup` effects become an explicit
`fetchDoc : String → Except Unit Node` oracle (a fetched-and-parsed page, or a
raised exception), and Python exceptions (`ValueError` from `datetime`,
`OverflowError` from `datetime + timedelta`) become `Except.error ()`.
Machine-independent data (strings, lists, naive datetimes) is modelled exactly.
-/

namespace NuLiga

/-! ## Whitespace and `norm` (source: `norm`, line 31-32)

Python's `str.split()` / `str.strip()` whitespace set, restricted to the
characters Python treats as string whitespace (ASCII whitespace, the C1
separators, NEL, NBSP and the Unicode space separators). -/

def pyIsSpace (c : Char) : Bool :=
  let n := c.toNat
  (9 ≤ n && n ≤ 13) || n = 28 || n = 29 || n = 30 || n = 31 || n = 32 ||
    n = 133 || n = 160 || n = 0x1680 || (0x2000 ≤ n && n ≤ 0x200A) ||
    n = 0x2028 || n = 0x2029 || n = 0x202F || n = 0x205F || n = 0x3000

/-- `s.replace("\xa0", " ")`, character by character (NBSP is one char). -/
def replNbsp (c : Char) : Char := if c.toNat = 160 then ' ' else c

/-- Helper for `pyWords`: `acc` holds the reversed current word. -/
def pyWordsAcc : List Char → List Char → List (List Char)
  | [], acc => if acc = ([] : List Char) then [] else [acc.reverse]
  | c :: cs, acc =>
    if pyIsSpace c then
      if acc = ([] : List Char) then pyWordsAcc cs [] else acc.reverse :: pyWordsAcc cs []
    else pyWordsAcc cs (c :: acc)

/-- `str.split()` with no separator: split on whitespace runs, dropping empties. -/
def pyWords (cs : List Char) : List (List Char) := pyWordsAcc cs []

/-- `" ".join(ws)` on char lists. -/
def joinSpace : List (List Char) → List Char
  | [] => []
  | [w] => w
  | w :: ws => w ++ ' ' :: joinSpace ws

/-- `norm` from the source on char lists: `" ".join(s.replace("\xa0", " ").split())`.
The trailing `.strip()` in the source is the identity on this output (the join of
nonempty whitespace-free words has no leading/trailing whitespace) and is
reflected by `pyStrip_normChars` below. -/
def normChars (cs : List Char) : List Char :=
  joinSpace (pyWords (cs.map replNbsp))

/-- `str.strip()` with no arguments. -/
def pyStrip (cs : List Char) : List Char :=
  ((cs.dropWhile pyIsSpace).reverse.dropWhile pyIsSpace).reverse

/-- `norm(s)` from the source (lines 31-32), on `String`. -/
def norm (s : String) : String := ⟨normChars s.data⟩

/-! ## Regex search (source: `DATE_RE`, `TIME_RE`, lines 23-24; score regex, line 169)

A fixed-width alternative-free pattern is a list of character predicates; a
regex `search` tries each start position left to right, and at one position
tries the alternatives in the regex's backtracking order.  For the three
patterns of the source (two-digit groups separated by dots, `(\d{1,2}):(\d{2})`,
`\d+:\d+`) this reproduces Python `re.search` exactly. -/

def isDig (c : Char) : Bool := 48 ≤ c.toNat && c.toNat ≤ 57

def digitVal (c : Char) : Nat := c.toNat - 48

/-- Match a list of character predicates against a prefix, returning the
matched characters. -/
def matchPat : List (Char → Bool) → List Char → Option (List Char)
  | [], _ => some []
  | _ :: _, [] => none
  | p :: ps, c :: cs => if p c then (matchPat ps cs).map (c :: ·) else none

/-- Try the alternatives at one position, in order. -/
def tryPats (pats : List (List (Char → Bool))) (cs : List Char) : Option (List Char) :=
  match pats with
  | [] => none
  | p :: ps =>
    match matchPat p cs with
    | some r => some r
    | none => tryPats ps cs

/-- `re.search`: leftmost position first, alternatives in order at each position. -/
def searchPats (pats : List (List (Char → Bool))) : List Char → Option (List Char)
  | [] => none
  | c :: cs =>
    match tryPats pats (c :: cs) with
    | some r => some r
    | none => searchPats pats cs

/-- `DATE_RE` (line 23) as a predicate list. -/
def datePat : List (Char → Bool) :=
  [isDig, isDig, (· = '.'), isDig, isDig, (· = '.'), isDig, isDig, isDig, isDig]

/-- `TIME_RE` (line 24): the greedy `{1,2}` tries two digits first. -/
def timePat2 : List (Char → Bool) := [isDig, isDig, (· = ':'), isDig, isDig]

def timePat1 : List (Char → Bool) := [isDig, (· = ':'), isDig, isDig]

/-- Day/month/year of a `DATE_RE` match (the three regex groups as ints). -/
def extractDate : List Char → Nat × Nat × Nat
  | [d1, d2, _, m1, m2, _, y1, y2, y3, y4] =>
    (10 * digitVal d1 + digitVal d2, 10 * digitVal m1 + digitVal m2,
      1000 * digitVal y1 + 100 * digitVal y2 + 10 * digitVal y3 + digitVal y4)
  | _ => (0, 0, 0)

/-- Hour/minute of a `TIME_RE` match. -/
def extractTime : List Char → Nat × Nat
  | [h1, h2, _, m1, m2] => (10 * digitVal h1 + digitVal h2, 10 * digitVal m1 + digitVal m2)
  | [h1, _, m1, m2] => (digitVal h1, 10 * digitVal m1 + digitVal m2)
  | _ => (0, 0)

/-- `DATE_RE.search(s)`, returning the `(day, month, year)` groups of the first
match, as the source's `map(int, m.groups())` does (line 52). -/
def searchDate (cs : List Char) : Option (Nat × Nat × Nat) :=
  (searchPats [datePat] cs).map extractDate

/-- `TIME_RE.search(s)`, returning `(hour, minute)` of the first match. -/
def searchTime (cs : List Char) : Option (Nat × Nat) :=
  (searchPats [timePat2, timePat1] cs).map extractTime

/-- The score regex (line 169) at one position: a maximal nonempty digit run,
a colon, a nonempty digit run; `group(0)` is the whole match (lines 169-171). -/
def scoreAt (l : List Char) : Option (List Char) :=
  let r1 := l.takeWhile isDig
  match r1 with
  | [] => none
  | _ :: _ =>
    match l.drop r1.length with
    | ':' :: rest =>
      match rest.takeWhile isDig with
      | [] => none
      | r2h :: r2t => some (r1 ++ ':' :: r2h :: r2t)
    | _ => none

/-- `re.search` of the score regex: leftmost match. -/
def searchScore : List Char → Option (List Char)
  | [] => none
  | c :: cs =>
    match scoreAt (c :: cs) with
    | some g => some g
    | none => searchScore cs

/-! ## Naive datetimes (Python `datetime`, `timedelta`)

`datetime(year, month, day, hour, minute)` validates its components
(`MINYEAR = 1`, `MAXYEAR = 9999`) and raises `ValueError` otherwise; adding a
`timedelta` shifts the instant on the proleptic Gregorian calendar and raises
`OverflowError` when the result leaves `[datetime.min, datetime.max]`.  Days
are counted from 0000-03-01 (`daysFromCivil`); `civilFromDays` is its proven
inverse (`daysFromCivil_civilFromDays`). -/

instance {e a : Type} [DecidableEq e] [DecidableEq a] : DecidableEq (Except e a) := by
  intro x y
  cases x <;> cases y <;> first
    | (apply isFalse; intro h; exact Except.noConfusion h)
    | (rename_i u v
       exact if h : u = v then isTrue (by rw [h]) else
         isFalse (fun hc => h (by cases hc; rfl)))

structure PyDateTime where
  year : Nat
  month : Nat
  day : Nat
  hour : Nat
  minute : Nat
deriving DecidableEq, Repr

def isLeap (y : Nat) : Bool := y % 4 = 0 && (y % 100 ≠ 0 || y % 400 = 0)

def daysInMonth (y m : Nat) : Nat :=
  if m = 2 then (if isLeap y then 29 else 28)
  else if m = 4 || m = 6 || m = 9 || m = 11 then 30
  else 31

/-- Component validity checked by the `datetime` constructor. -/
def validDT (y m d hh mi : Nat) : Bool :=
  1 ≤ y && y ≤ 9999 && 1 ≤ m && m ≤ 12 && 1 ≤ d && d ≤ daysInMonth y m &&
    hh ≤ 23 && mi ≤ 59

/-- `datetime(year, month, day, hh, mi)`: `ValueError` becomes `Except.error ()`. -/
def mkDatetime (y m d hh mi : Nat) : Except Unit PyDateTime :=
  if validDT y m d hh mi then Except.ok ⟨y, m, d, hh, mi⟩ else Except.error ()

/-- Days since 0000-03-01 of a Gregorian date (standard civil-calendar count). -/
def daysFromCivil (y m d : Nat) : Nat :=
  let y' := if m ≤ 2 then y - 1 else y
  let era := y' / 400
  let yoe := y' % 400
  let mp := if 2 < m then m - 3 else m + 9
  let doy := (153 * mp + 2) / 5 + d - 1
  let doe := yoe * 365 + yoe / 4 - yoe / 100 + doy
  era * 146097 + doe

/-- Inverse of `daysFromCivil`: the Gregorian date of a day count. -/
def civilFromDays (z : Nat) : Nat × Nat × Nat :=
  let era := z / 146097
  let doe := z % 146097
  let y0 := doe / 365
  let yoe := if 365 * y0 + y0 / 4 - y0 / 100 ≤ doe ∧ y0 < 400 then y0 else y0 - 1
  let doy := doe - (365 * yoe + yoe / 4 - yoe / 100)
  let mp := (5 * doy + 2) / 153
  let d := doy - (153 * mp + 2) / 5 + 1
  let m := if mp < 10 then mp + 3 else mp - 9
  let y := yoe + era * 400 + (if m ≤ 2 then 1 else 0)
  (y, m, d)

/-- A datetime as the count of minutes since 0000-03-01 00:00. -/
def minutesOfDT (dt : PyDateTime) : Nat :=
  1440 * daysFromCivil dt.year dt.month dt.day + 60 * dt.hour + dt.minute

def dtFromMinutes (n : Nat) : PyDateTime :=
  let c := civilFromDays (n / 1440)
  ⟨c.1, c.2.1, c.2.2, n % 1440 / 60, n % 60⟩

/-- Minute count of `datetime.min` (0001-01-01 00:00). -/
def minMinutes : Nat := minutesOfDT ⟨1, 1, 1, 0, 0⟩

/-- Minute count of `datetime.max` at minute precision (9999-12-31 23:59). -/
def maxMinutes : Nat := minutesOfDT ⟨9999, 12, 31, 23, 59⟩

/-- `dt + timedelta(minutes=k)`: `OverflowError` becomes `Except.error ()`.
All datetimes built by this program have zero seconds, so minute granularity
is exact. -/
def addMinutes (dt : PyDateTime) (k : Int) : Except Unit PyDateTime :=
  let t : Int := (minutesOfDT dt : Int) + k
  if (minMinutes : Int) ≤ t ∧ t ≤ (maxMinutes : Int) then Except.ok (dtFromMinutes t.toNat)
  else Except.error ()

/-- Left-pad the decimal representation to two digits. -/
def pad2 (n : Nat) : String := (if n < 10 then "0" else "") ++ toString n

/-- Left-pad the decimal representation to four digits. -/
def pad4 (n : Nat) : String :=
  (if n < 10 then "000" else if n < 100 then "00" else if n < 1000 then "0" else "") ++
    toString n

/-- `fmt_date` (lines 34-35): `strftime("%m/%d/%Y")`. -/
def fmt_date (dt : PyDateTime) : String :=
  pad2 dt.month ++ "/" ++ pad2 dt.day ++ "/" ++ pad4 dt.year

/-- `fmt_time` (lines 37-38): `strftime("%H:%M")`. -/
def fmt_time (dt : PyDateTime) : String :=
  pad2 dt.hour ++ ":" ++ pad2 dt.minute

/-- `parse_datetime` (lines 40-59).  `Except.ok none` is the `return None`
path; `Except.error ()` is an uncaught `ValueError` from the `datetime`
constructor. -/
def parse_datetime (date_text : String) (time_text : Option String) :
    Except Unit (Option PyDateTime) :=
  let dt := norm date_text
  let tt := norm (time_text.getD "")
  match searchDate dt.data with
  | none => Except.ok none
  | some (day, month, year) =>
    let hm := (searchTime tt.data).getD (0, 0)
    match mkDatetime year month day hm.1 hm.2 with
    | Except.ok x => Except.ok (some x)
    | Except.error e => Except.error e

/-! ## HTML trees (BeautifulSoup)

A parsed HTML document is a tree of element and text nodes.  BeautifulSoup's
`get_text(sep, strip)` joins the descendant strings in document order
(stripping each and dropping empties when `strip=True`); `find`/`find_all`
search the descendants in pre-order; `find_all_next` walks the rest of the
document in pre-order starting right after a node (first its own subtree,
then the following nodes). -/

inductive Node where
  | text : String → Node
  | elem : String → List (String × String) → List Node → Node

mutual

/-- Descendant strings in document order (`tag.strings`). -/
def Node.strings : Node → List String
  | Node.text s => [s]
  | Node.elem _ _ cs => Node.stringsList cs

def Node.stringsList : List Node → List String
  | [] => []
  | n :: ns => Node.strings n ++ Node.stringsList ns

end

mutual

/-- Pre-order traversal of a node: the node itself, then its subtrees. -/
def Node.preorder : Node → List Node
  | Node.text s => [Node.text s]
  | Node.elem nm at' cs => Node.elem nm at' cs :: Node.preorderList cs

def Node.preorderList : List Node → List Node
  | [] => []
  | n :: ns => Node.preorder n ++ Node.preorderList ns

end

/-- The descendants of a node in document order (excluding the node itself):
the search space of `find` / `find_all`. -/
def Node.descendants : Node → List Node
  | Node.text _ => []
  | Node.elem _ _ cs => Node.preorderList cs

/-- `tag.get_text()`: concatenation of the descendant strings. -/
def getTextRaw (n : Node) : String := String.join n.strings

/-- `tag.get_text(" ", strip=True)`: strip each string, drop empties, join
with a space. -/
def getTextSp (n : Node) : String :=
  ⟨joinSpace ((n.strings.map (fun s => pyStrip s.data)).filter (· ≠ []))⟩

/-- `tag.get_text(strip=True)`: strip each string, drop empties, join with
the empty separator. -/
def getTextStrip (n : Node) : String :=
  ⟨((n.strings.map (fun s => pyStrip s.data)).filter (· ≠ [])).foldr (· ++ ·) []⟩

def Node.name : Node → Option String
  | Node.text _ => none
  | Node.elem nm _ _ => some nm

def Node.isElemNamed (nm : String) (n : Node) : Bool := n.name = some nm

/-- `tag.get(key)`: attribute lookup on an element. -/
def Node.attr : Node → String → Option String
  | Node.text _, _ => none
  | Node.elem _ as' _, key => (as'.find? (fun p => p.1 = key)).map (·.2)

/-- `cell.find("a")`: first descendant anchor element in document order. -/
def findA (n : Node) : Option Node :=
  (n.descendants.filter (Node.isElemNamed "a")).head?

/-- `tr.find_all("td")`: all descendant `td` elements in document order. -/
def findTds (n : Node) : List Node := n.descendants.filter (Node.isElemNamed "td")

/-- Substring containment (Python's `in` on strings). -/
def containsSub (needle hay : List Char) : Bool :=
  match hay with
  | [] => needle.isEmpty
  | _ :: t => needle.isPrefixOf hay || containsSub needle t

/-! ## Venue enrichment (source: `hall_address_from_cell`, lines 75-113) -/

/-- Headings matched by the compiled name regex `h[1-4]` (line 94, 99). -/
def Node.isHeading (n : Node) : Bool :=
  n.name = some "h1" || n.name = some "h2" || n.name = some "h3" || n.name = some "h4"

/-- Block-level elements collected below the marker (line 101). -/
def Node.isBlock (n : Node) : Bool :=
  n.name = some "p" || n.name = some "div" || n.name = some "address"

/-- The `hs.find_all(h[1-4])` loop of lines 94-107: find the first `h1`-`h4`
element (in document order) whose `get_text()` contains `"Hallenadresse"` and
return the rest of the document's pre-order after it, i.e. the list walked by
`tag.find_all_next()` (text nodes are never headings nor blocks, so keeping
them is harmless). -/
def afterMarker : List Node → Option (List Node)
  | [] => none
  | n :: ns =>
    if n.isHeading && containsSub "Hallenadresse".data (getTextRaw n).data then some ns
    else afterMarker ns

/-- The inner `for sib in tag.find_all_next()` loop (lines 97-106): break on
any `h1`-`h4` heading, append the normalized text of a `p`/`div`/`address`
element when nonempty, break once 3 lines are collected. -/
def collectAddrLines : List Node → List String → List String
  | [], acc => acc
  | n :: ns, acc =>
    if n.isHeading then acc
    else
      let acc' := if n.isBlock then
          (let t := norm (getTextSp n); if t ≠ "" then acc ++ [t] else acc)
        else acc
      if 3 ≤ acc'.length then acc' else collectAddrLines ns acc'

/-- `addr_lines` as collected from a fetched hall page (lines 93-107). -/
def hallLines (doc : Node) : List String :=
  match afterMarker doc.descendants with
  | none => []
  | some ns => collectAddrLines ns []

/-- `" | ".join(parts)`. -/
def joinBar : List String → String
  | [] => ""
  | [s] => s
  | s :: ss => s ++ " | " ++ joinBar ss

/-- `a.get("href")` combined with the falsy test of line 82: a missing
attribute and an empty one both fail `a.get("href")`. -/
def getHref (a : Node) : Option String :=
  match a.attr "href" with
  | none => none
  | some s => if s = "" then none else some s

/-- `hall_address_from_cell` (lines 75-113).  `fetchDoc href` stands for
`BeautifulSoup(fetch(urljoin(page_url, href)), "html.parser")`: the fetched
and parsed hall page, or `Except.error ()` when `fetch` raises (the
`try/except` of lines 86-89). -/
def hall_address_from_cell (fetchDoc : String → Except Unit Node) (cell : Node) : String :=
  let fallback := norm (getTextSp cell)
  match findA cell with
  | none => fallback
  | some a =>
    match getHref a with
    | none => fallback
    | some href =>
      match fetchDoc href with
      | Except.error _ => fallback
      | Except.ok hs =>
        let addr_lines := hallLines hs
        let code := norm (getTextStrip a)
        let addr := if addr_lines.isEmpty then fallback else joinBar addr_lines
        if code ≠ "" && !containsSub code.data addr.data then code ++ " – " ++ addr
        else addr

/-! ## The row parser (source: `parse_team_portrait`, lines 132-188)

`parse_team_portrait` fetches the page, locates the `Spieltermine` tables and
runs the loop body of lines 133-186 on every `tr`.  The loop body is embedded
as `parseRowFull` (per row; also exposing the `start_dt`/`end_dt` of lines
153-158) below; `parseCells` is the same computation starting from the
extracted cell list `tds`. -/

structure MatchRecord where
  subject : String
  startDate : String
  startTime : String
  endDate : String
  endTime : String
  allDayEvent : String
  description : String
  location : String
  priv : String
deriving DecidableEq, Repr

/-- `norm(tds[i].get_text(" ", strip=True))`: the text of cell `i` (the
default node is never used at the call sites, which are guarded by the
length checks of the source). -/
def cellTxt (tds : List Node) (i : Nat) : String :=
  norm (getTextSp (tds.getD i (Node.text "")))

/-- The loop body of lines 136-186 on the extracted cell list `tds`.
`Except.ok none` is a `continue`; `Except.error ()` is an uncaught
`ValueError`/`OverflowError` escaping the loop. -/
def parseCells (default_duration : Int) (enrich_halls : Bool)
    (fetchDoc : String → Except Unit Node) (tds : List Node) :
    Except Unit (Option (PyDateTime × PyDateTime × MatchRecord)) :=
  if tds.length < 7 then Except.ok none
  else
    let date_txt := cellTxt tds 1
    let time_txt := cellTxt tds 2
    let hall_cell := tds.getD 3 (Node.text "")
    let nr_txt := if 5 ≤ tds.length then cellTxt tds 4 else ""
    let home := if 6 ≤ tds.length then cellTxt tds 5 else ""
    let away := if 7 ≤ tds.length then cellTxt tds 6 else ""
    let result := if 8 ≤ tds.length then cellTxt tds 7 else ""
    match searchDate date_txt.data with
    | none => Except.ok none
    | some _ =>
      match parse_datetime date_txt (some (if time_txt = "" then "19:30" else time_txt)) with
      | Except.error e => Except.error e
      | Except.ok none => Except.ok none
      | Except.ok (some start_dt) =>
        match addMinutes start_dt default_duration with
        | Except.error e => Except.error e
        | Except.ok end_dt =>
          let location :=
            if enrich_halls then hall_address_from_cell fetchDoc hall_cell
            else norm (getTextSp hall_cell)
          let desc1 : List String := if nr_txt ≠ "" then ["Spiel Nr.: " ++ nr_txt] else []
          let desc2 : List String :=
            if result ≠ "" then
              match searchScore result.data with
              | some sc => ["Ergebnis: " ++ String.mk sc]
              | none => []
            else []
          let description := joinBar (desc1 ++ desc2)
          Except.ok (some (start_dt, end_dt,
            { subject := home ++ " vs. " ++ away
              startDate := fmt_date start_dt
              startTime := fmt_time start_dt
              endDate := fmt_date end_dt
              endTime := fmt_time end_dt
              allDayEvent := "False"
              description := description
              location := location
              priv := "False" }))

/-- The loop body of lines 133-186 on a `tr` node, exposing the timestamps. -/
def parseRowFull (default_duration : Int) (enrich_halls : Bool)
    (fetchDoc : String → Except Unit Node) (tr : Node) :
    Except Unit (Option (PyDateTime × PyDateTime × MatchRecord)) :=
  parseCells default_duration enrich_halls fetchDoc (findTds tr)

/-- The loop body as observed through `rows_out`: just the emitted record. -/
def parseRow (default_duration : Int) (enrich_halls : Bool)
    (fetchDoc : String → Except Unit Node) (tr : Node) :
    Except Unit (Option MatchRecord) :=
  (parseRowFull default_duration enrich_halls fetchDoc tr).map (Option.map (·.2.2))

/-- A fetch oracle for runs with enrichment disabled (never consulted). -/
def noFetch : String → Except Unit Node := fun _ => Except.error ()

/-! ## Concrete fixtures used by the claims -/

/-- A table cell with one text child. -/
def td (s : String) : Node := Node.elem "td" [] [Node.text s]

/-- The row of the spec's §8 scenario: weekday, date, time, linked venue code,
match number, home, away, result. -/
def rowC1 : Node := Node.elem "tr" []
  [td "Fr", td "03.10.2025", td "19:30 Uhr",
   Node.elem "td" [] [Node.elem "a" [("href", "/hall?id=7")] [Node.text "TU"]],
   td "12", td "Team A", td "Team B", td "3:1"]

/-! ## CSV writing (source: `write_csv`, lines 190-198)

`csv.DictWriter` with the default `excel` dialect: delimiter `,`, quote char
`"`, `QUOTE_MINIMAL` (quote exactly the fields containing a delimiter, a
quote or a line-terminator character, doubling embedded quotes), rows
terminated by CRLF.  `write_csv` writes the header row then one row per
record, every record supplying all nine keys. -/

def csvFieldnames : List String :=
  ["Subject", "Start Date", "Start Time", "End Date", "End Time",
   "All Day Event", "Description", "Location", "Private"]

/-- The dict built at lines 176-186, read back in `fieldnames` order. -/
def recordFields (r : MatchRecord) : List String :=
  [r.subject, r.startDate, r.startTime, r.endDate, r.endTime,
   r.allDayEvent, r.description, r.location, r.priv]

/-- `QUOTE_MINIMAL`: does this field need quoting? -/
def needsQuote (f : List Char) : Bool :=
  f.any (fun c => c = ',' || c = '"' || c = '\r' || c = '\n')

/-- Double every embedded quote. -/
def escQuotes : List Char → List Char
  | [] => []
  | '"' :: cs => '"' :: '"' :: escQuotes cs
  | c :: cs => c :: escQuotes cs

def renderField (f : List Char) : List Char :=
  if needsQuote f then '"' :: (escQuotes f ++ ['"']) else f

def renderRow : List (List Char) → List Char
  | [] => []
  | [f] => renderField f
  | f :: fs => renderField f ++ ',' :: renderRow fs

/-- Each row is terminated by `\r\n` (the csv module's default). -/
def renderCsv : List (List (List Char)) → List Char
  | [] => []
  | row :: rows => renderRow row ++ '\r' :: '\n' :: renderCsv rows

/-- `write_csv(rows, path)` (lines 190-198): the bytes written to the file. -/
def write_csv (rows : List MatchRecord) : String :=
  ⟨renderCsv ((csvFieldnames.map String.data) ::
    rows.map (fun r => (recordFields r).map String.data))⟩

/-- Reading one field back: a quoted field consumes up to the closing quote
(doubled quotes decode to one), an unquoted field extends to the next
delimiter or row end. -/
def parseQuotedAux : List Char → List Char → Option (List Char × List Char)
  | _, [] => none
  | acc, c :: rest =>
    if c = '"' then
      match rest with
      | [] => some (acc, [])
      | c2 :: rest2 =>
        if c2 = '"' then parseQuotedAux (acc ++ ['"']) rest2 else some (acc, rest)
    else parseQuotedAux (acc ++ [c]) rest

/-- A character that ends an unquoted field. -/
def notDelim (c : Char) : Bool := !(c = ',' || c = '\r' || c = '\n')

def parseField (cs : List Char) : Option (List Char × List Char) :=
  match cs with
  | [] => some ([], [])
  | c :: rest =>
    if c = '"' then parseQuotedAux [] rest
    else some ((c :: rest).takeWhile notDelim, (c :: rest).dropWhile notDelim)

/-- Reading one CSV row: fields separated by `,`, ended by CRLF. -/
def parseRowCsv : Nat → List Char → Option (List (List Char) × List Char)
  | 0, _ => none
  | fuel + 1, cs =>
    match parseField cs with
    | none => none
    | some (f, rest) =>
      match rest with
      | ',' :: rest2 =>
        match parseRowCsv fuel rest2 with
        | none => none
        | some (fs, rest3) => some (f :: fs, rest3)
      | '\r' :: '\n' :: rest2 => some ([f], rest2)
      | _ => none

/-- Reading a whole CSV text back as rows of fields. -/
def parseCsvFuel : Nat → List Char → Option (List (List (List Char)))
  | _, [] => some []
  | 0, _ :: _ => none
  | fuel + 1, c :: cs =>
    match parseRowCsv (cs.length + 2) (c :: cs) with
    | none => none
    | some (row, rest) =>
      match parseCsvFuel fuel rest with
      | none => none
      | some rows => some (row :: rows)

def parseCsv (cs : List Char) : Option (List (List (List Char))) :=
  parseCsvFuel (cs.length + 1) cs

/-- Every alternative is nonempty and every predicate rejects whitespace. -/
def spaceRej (pats : List (List (Char → Bool))) : Prop :=
  ∀ p ∈ pats, p ≠ [] ∧ ∀ pr ∈ p, ∀ c, pyIsSpace c = true → pr c = false

/-- First match over a word list, leftmost word first. -/
def searchW (pats : List (List (Char → Bool))) (ws : List (List Char)) :
    Option (List Char) :=
  ws.foldr (fun w r =>
    match searchPats pats w with
    | some x => some x
    | none => r) none

/-- The block-fragment selector of the collection loop: the normalized text
of a nonempty `p`/`div`/`address` element. -/
def blockText (n : Node) : Option String :=
  if n.isBlock then
    (if norm (getTextSp n) ≠ "" then some (norm (getTextSp n)) else none)
  else none

/-- Heading level of an `h1`-`h4` element.  Used only by the spec-level
collector below. -/
def headingLevel (n : Node) : Option Nat :=
  match n.name with
  | some "h1" => some 1
  | some "h2" => some 2
  | some "h3" => some 3
  | some "h4" => some 4
  | _ => none

/-- Modelled from the spec (§4.6): a heading that stops the collection is one
of equal-or-higher level than the marker heading. -/
def stopsLevel (marker : Nat) (n : Node) : Bool :=
  match headingLevel n with
  | some l => decide (l ≤ marker)
  | none => false

/-- Modelled from the spec (§4.6): collect up to 3 block fragments, stopping
early only at a heading of equal-or-higher level than the marker. -/
def collectAddrLinesLevel (marker : Nat) : List Node → List String → List String
  | [], acc => acc
  | n :: ns, acc =>
    if stopsLevel marker n then acc
    else
      let acc' := match blockText n with
        | some t => acc ++ [t]
        | none => acc
      if 3 ≤ acc'.length then acc' else collectAddrLinesLevel marker ns acc'

def afterMarkerLevel : List Node → Option (Nat × List Node)
  | [] => none
  | n :: ns =>
    if n.isHeading && containsSub "Hallenadresse".data (getTextRaw n).data then
      some ((headingLevel n).getD 4, ns)
    else afterMarkerLevel ns

/-- Modelled from the spec (§4.6): the address lines as the spec words them,
to be compared with the source's `hallLines`. -/
def hallLinesLevelAware (doc : Node) : List String :=
  match afterMarkerLevel doc.descendants with
  | none => []
  | some (lvl, ns) => collectAddrLinesLevel lvl ns []

/-! ## Further concrete fixtures -/

def pEl (s : String) : Node := Node.elem "p" [] [Node.text s]

def divEl (s : String) : Node := Node.elem "div" [] [Node.text s]

def h2El (s : String) : Node := Node.elem "h2" [] [Node.text s]

def h3El (s : String) : Node := Node.elem "h3" [] [Node.text s]

def startC1 : PyDateTime := ⟨2025, 10, 3, 19, 30⟩

def endC1 : PyDateTime := ⟨2025, 10, 3, 21, 0⟩

def recC1 : MatchRecord :=
  { subject := "Team A vs. Team B"
    startDate := "10/03/2025"
    startTime := "19:30"
    endDate := "10/03/2025"
    endTime := "21:00"
    allDayEvent := "False"
    description := "Spiel Nr.: 12 | Ergebnis: 3:1"
    location := "TU"
    priv := "False" }

/-- The linked venue cell of `rowC1` and its anchor. -/
def aTU : Node := Node.elem "a" [("href", "/hall?id=7")] [Node.text "TU"]

def cellTU : Node := Node.elem "td" [] [aTU]

/-- `rowC1` with an empty time cell (C4's scenario). -/
def rowC4 : Node := Node.elem "tr" []
  [td "Fr", td "03.10.2025", td "", cellTU, td "12", td "Team A", td "Team B", td "3:1"]

def endC4 : PyDateTime := ⟨2025, 10, 3, 21, 30⟩

def recC4 : MatchRecord :=
  { recC1 with endTime := "21:30" }

/-- The record emitted from `rowC1` under duration 0. -/
def recC6 : MatchRecord :=
  { recC1 with endTime := "19:30" }

/-- A venue cell whose anchor text is split across two nodes, so the joined
link text `"ABCD"` is not a substring of the cell text `"AB CD"`. -/
def cellC7 : Node := Node.elem "td" []
  [Node.elem "a" [("href", "h")] [Node.text "AB", Node.elem "b" [] [Node.text "CD"]]]

/-- A hall page with no `Hallenadresse` heading. -/
def fetchC7 : String → Except Unit Node :=
  fun _ => Except.ok (Node.elem "html" [] [pEl "nothing here"])

/-- A hall page whose `h2` marker is followed by a lower-level `h3` heading
and then a block fragment. -/
def docC8 : Node := Node.elem "html" []
  [h2El "Hallenadresse", h3El "Anfahrt", pEl "Beispielstr. 1"]

/-- A hall page with a marker followed by four block fragments. -/
def docC8W : Node := Node.elem "html" []
  [h2El "Hallenadresse", pEl "Street 1", divEl "Town", pEl "Extra", pEl "More"]

/-- The tail of `docC8W.descendants` after its marker heading. -/
def nsC8 : List Node :=
  [Node.text "Hallenadresse", pEl "Street 1", Node.text "Street 1",
   divEl "Town", Node.text "Town", pEl "Extra", Node.text "Extra",
   pEl "More", Node.text "More"]

/-- Two rows agreeing on cells 1-7 but differing in the weekday cell and in
an extra trailing cell. -/
def rowC10a : Node := Node.elem "tr" []
  [td "Fr", td "03.10.2025", td "19:30", cellTU, td "12", td "Team A", td "Team B", td "3:1"]

def rowC10b : Node := Node.elem "tr" []
  [td "So", td "03.10.2025", td "19:30", cellTU, td "12", td "Team A", td "Team B", td "3:1",
   td "irrelevant extra cell"]

/-! ## Concrete sanity checks of the embedding -/

example : norm "  a   b\t c  " = "a b c" := by decide
example : norm "" = "" := by decide
example : norm "19:30  Uhr" = "19:30 Uhr" := by decide
example : searchDate "am 03.10.2025 x".data = some (3, 10, 2025) := by decide
example : searchDate "3.10.2025".data = none := by decide
example : searchDate "123.45.6789".data = some (23, 45, 6789) := by decide
example : searchTime "19:30 Uhr".data = some (19, 30) := by decide
example : searchTime "9:05".data = some (9, 5) := by decide
example : searchTime "119:30".data = some (19, 30) := by decide
example : searchTime "abc".data = none := by decide
example : searchScore "3:1 (25:20)".data = some "3:1".data := by decide
example : searchScore "x 25:20".data = some "25:20".data := by decide
example : searchScore "-".data = none := by decide
example : parse_datetime "30.09.2025" (some "19:30 Uhr") =
    Except.ok (some ⟨2025, 9, 30, 19, 30⟩) := by decide
example : parse_datetime "Termin offen" (some "19:30") = Except.ok none := by decide
example : parse_datetime "03.10.2025" (some "99:99") = Except.error () := by decide
example : parse_datetime "99.99.2025" none = Except.error () := by decide
example : parse_datetime "03.10.2025" none = Except.ok (some ⟨2025, 10, 3, 0, 0⟩) := by decide
example : addMinutes ⟨2025, 10, 3, 19, 30⟩ 90 = Except.ok ⟨2025, 10, 3, 21, 0⟩ := by decide
example : addMinutes ⟨2025, 10, 3, 19, 30⟩ (-1171) = Except.ok ⟨2025, 10, 2, 23, 59⟩ := by decide
example : addMinutes ⟨9999, 12, 31, 23, 0⟩ 120 = Except.error () := by decide
example : fmt_date ⟨2025, 10, 3, 19, 30⟩ = "10/03/2025" := by decide
example : fmt_time ⟨2025, 10, 3, 19, 30⟩ = "19:30" := by decide
example : containsSub "lo w".data "hello world".data = true := by decide
example : containsSub "xyz".data "hello".data = false := by decide
example : containsSub "".data "".data = true := by decide
example : parseCsv "a,b\r\nc,\"d,e\"\"f\"\r\n".data =
    some [["a".data, "b".data], ["c".data, "d,e\"f".data]] := by decide
example : civilFromDays (daysFromCivil 2025 10 3) = (2025, 10, 3) := by decide
example : civilFromDays (daysFromCivil 2024 2 29) = (2024, 2, 29) := by decide
example : civilFromDays (daysFromCivil 1 1 1) = (1, 1, 1) := by decide
example : civilFromDays (daysFromCivil 9999 12 31) = (9999, 12, 31) := by decide
example : civilFromDays (daysFromCivil 400 2 29) = (400, 2, 29) := by decide
example : civilFromDays (daysFromCivil 1900 2 28) = (1900, 2, 28) := by decide

/-! ## Calendar lemmas -/

/-- `civilFromDays` is a section of `daysFromCivil`: converting a day count to
a Gregorian date and back is the identity. -/
theorem daysFromCivil_civilFromDays (z : Nat) :
    daysFromCivil (civilFromDays z).1 (civilFromDays z).2.1 (civilFromDays z).2.2 = z := by
  unfold civilFromDays
  simp only
  set era := z / 146097 with hera
  set doe := z % 146097 with hdoe
  have hdoe_lt : doe < 146097 := by omega
  set y0 := doe / 365 with hy0
  set yoe := if 365 * y0 + y0 / 4 - y0 / 100 ≤ doe ∧ y0 < 400 then y0 else y0 - 1 with hyoe
  have key : 365 * yoe + yoe / 4 - yoe / 100 ≤ doe ∧
      doe - (365 * yoe + yoe / 4 - yoe / 100) ≤ 365 ∧ yoe ≤ 399 := by
    rw [hyoe]; split <;> omega
  obtain ⟨hys, hdoy365, hyoe399⟩ := key
  set doy := doe - (365 * yoe + yoe / 4 - yoe / 100) with hdoy
  set mp := (5 * doy + 2) / 153 with hmp
  have hmp11 : mp ≤ 11 := by omega
  have hq : (153 * mp + 2) / 5 ≤ doy := by omega
  set d := doy - (153 * mp + 2) / 5 + 1 with hd
  set m := if mp < 10 then mp + 3 else mp - 9 with hm
  unfold daysFromCivil
  simp only
  by_cases h10 : mp < 10
  · have hmval : m = mp + 3 := by rw [hm, if_pos h10]
    rw [hmval, if_neg (by omega : ¬ (mp + 3 ≤ 2)), if_neg (by omega : ¬ (mp + 3 ≤ 2)),
      if_pos (by omega : 2 < mp + 3), Nat.add_sub_cancel, Nat.add_zero]
    have e1 : (yoe + era * 400) / 400 = era := by omega
    have e2 : (yoe + era * 400) % 400 = yoe := by omega
    rw [e1, e2]
    omega
  · have hmval : m = mp - 9 := by rw [hm, if_neg h10]
    have h9 : mp - 9 + 9 = mp := by omega
    rw [hmval, if_pos (by omega : mp - 9 ≤ 2), if_pos (by omega : mp - 9 ≤ 2),
      if_neg (by omega : ¬ (2 < mp - 9)), h9, Nat.add_sub_cancel]
    have e1 : (yoe + era * 400) / 400 = era := by omega
    have e2 : (yoe + era * 400) % 400 = yoe := by omega
    rw [e1, e2]
    omega

/-- Minute counts round-trip through `dtFromMinutes`. -/
theorem minutesOfDT_dtFromMinutes (n : Nat) : minutesOfDT (dtFromMinutes n) = n := by
  unfold dtFromMinutes minutesOfDT
  simp only
  rw [daysFromCivil_civilFromDays]
  omega

/-- `addMinutes` really shifts the minute count by `k`. -/
theorem minutesOfDT_addMinutes (dt e : PyDateTime) (k : Int)
    (h : addMinutes dt k = Except.ok e) :
    (minutesOfDT e : Int) = (minutesOfDT dt : Int) + k := by
  unfold addMinutes at h
  simp only at h
  split at h
  · rename_i hrange
    have he : e = dtFromMinutes ((minutesOfDT dt : Int) + k).toNat := by
      cases h; rfl
    rw [he, minutesOfDT_dtFromMinutes]
    have hmin : (0 : Int) ≤ (minutesOfDT dt : Int) + k := by
      have : (0 : Int) ≤ (minMinutes : Int) := Int.ofNat_nonneg _
      omega
    omega
  · exact absurd h (by simp)

/-! ## CSV round-trip lemmas -/

theorem takeWhile_append_stop (p : Char → Bool) (f rest : List Char)
    (hf : ∀ c ∈ f, p c = true)
    (hr : rest = [] ∨ p (rest.headD ' ') = false) :
    (f ++ rest).takeWhile p = f ∧ (f ++ rest).dropWhile p = rest := by
  induction f with
  | nil =>
    simp only [List.nil_append]
    rcases hr with h | h
    · subst h; exact ⟨rfl, rfl⟩
    · cases rest with
      | nil => exact ⟨rfl, rfl⟩
      | cons c t =>
        simp only [List.headD_cons] at h
        simp [List.takeWhile_cons, List.dropWhile_cons, h]
  | cons c f ih =>
    have hc := hf c (by simp)
    have hrec := ih (fun d hd => hf d (by simp [hd]))
    simp [List.takeWhile_cons, List.dropWhile_cons, hc, hrec.1, hrec.2]

theorem parseQuotedAux_esc (f : List Char) : ∀ acc rest,
    (rest = [] ∨ rest.headD ' ' ≠ '"') →
    parseQuotedAux acc (escQuotes f ++ '"' :: rest) = some (acc ++ f, rest) := by
  induction f with
  | nil =>
    intro acc rest hr
    cases rest with
    | nil => simp [parseQuotedAux, escQuotes]
    | cons c t =>
      have hc : c ≠ '"' := by simpa using hr
      simp [parseQuotedAux, escQuotes, hc]
  | cons c f ih =>
    intro acc rest hr
    by_cases hc : c = '"'
    · subst hc
      have hesc : escQuotes ('"' :: f) = '"' :: '"' :: escQuotes f := by simp [escQuotes]
      have hstep : ∀ l, parseQuotedAux acc ('"' :: '"' :: l) = parseQuotedAux (acc ++ ['"']) l :=
        fun l => rfl
      rw [hesc, List.cons_append, List.cons_append, hstep, ih (acc ++ ['"']) rest hr]
      simp
    · have hesc : escQuotes (c :: f) = c :: escQuotes f := by
        cases f <;> simp [escQuotes, hc]
      have hstep : ∀ l, parseQuotedAux acc (c :: l) = parseQuotedAux (acc ++ [c]) l := by
        intro l
        conv_lhs => rw [parseQuotedAux.eq_def]
        simp [hc]
      rw [hesc, List.cons_append, hstep, ih (acc ++ [c]) rest hr]
      simp

theorem needsQuote_false_mem {f : List Char} (hq : needsQuote f = false) :
    ∀ c ∈ f, notDelim c = true ∧ c ≠ '"' := by
  intro c hc
  have hb : (c = ',' || c = '"' || c = '\x0d' || c = '\n') = false := by
    unfold needsQuote at hq
    rw [List.any_eq_false] at hq
    simpa using hq c hc
  simp only [Bool.or_eq_false_iff, decide_eq_false_iff_not] at hb
  obtain ⟨⟨⟨h1, h2⟩, h3⟩, h4⟩ := hb
  exact ⟨by simp [notDelim, h1, h3, h4], h2⟩

theorem parseField_renderField (f rest : List Char)
    (hr : rest = [] ∨ rest.headD ' ' = ',' ∨ rest.headD ' ' = '\x0d') :
    parseField (renderField f ++ rest) = some (f, rest) := by
  have hrd : rest = [] ∨ notDelim (rest.headD ' ') = false := by
    rcases hr with h | h | h
    · exact Or.inl h
    · exact Or.inr (by rw [h]; decide)
    · exact Or.inr (by rw [h]; decide)
  unfold renderField
  by_cases hq : needsQuote f
  · simp only [if_pos hq, List.cons_append, List.append_assoc, List.singleton_append]
    have hr' : rest = [] ∨ rest.headD ' ' ≠ '"' := by
      rcases hr with h | h | h
      · exact Or.inl h
      · exact Or.inr (by rw [h]; decide)
      · exact Or.inr (by rw [h]; decide)
    simp only [parseField, if_pos rfl]
    simpa using parseQuotedAux_esc f [] rest hr'
  · rw [Bool.not_eq_true] at hq
    simp only [if_neg (by simp [hq] : ¬ needsQuote f = true)]
    have hmem := needsQuote_false_mem hq
    have hstop := takeWhile_append_stop notDelim f rest (fun c hc => (hmem c hc).1) hrd
    cases f with
    | nil =>
      cases rest with
      | nil => simp [parseField]
      | cons c t =>
        have hcq : c ≠ '"' := by
          rcases hrd with h | h
          · exact absurd h (by simp)
          · simp only [List.headD_cons] at h
            intro hh; subst hh; simp [notDelim] at h
        rw [List.nil_append] at hstop ⊢
        simp only [parseField, if_neg hcq]
        rw [hstop.1, hstop.2]
    | cons c fs =>
      have hcq : c ≠ '"' := (hmem c (by simp)).2
      simp only [List.cons_append, parseField, if_neg hcq]
      rw [show c :: (fs ++ rest) = (c :: fs) ++ rest from rfl, hstop.1, hstop.2]

theorem parseRowCsv_renderRow (fs : List (List Char)) (hne : fs ≠ []) :
    ∀ fuel rest, fs.length ≤ fuel →
    parseRowCsv fuel (renderRow fs ++ '\x0d' :: '\n' :: rest) = some (fs, rest) := by
  induction fs with
  | nil => exact absurd rfl hne
  | cons f fs ih =>
    intro fuel rest hfuel
    cases fuel with
    | zero => simp at hfuel
    | succ k =>
      cases fs with
      | nil =>
        show parseRowCsv (k + 1) (renderField f ++ '\x0d' :: '\n' :: rest) = _
        rw [parseRowCsv, parseField_renderField f ('\x0d' :: '\n' :: rest) (by simp)]
        rfl
      | cons g gs =>
        show parseRowCsv (k + 1)
          ((renderField f ++ ',' :: renderRow (g :: gs)) ++ '\x0d' :: '\n' :: rest) = _
        rw [List.append_assoc, List.cons_append, parseRowCsv,
          parseField_renderField f (',' :: (renderRow (g :: gs) ++ '\x0d' :: '\n' :: rest))
            (by simp)]
        simp only
        rw [ih (by simp) k rest (by simpa using hfuel)]

theorem renderCsv_cons (row : List (List Char)) (rows : List (List (List Char))) :
    renderCsv (row :: rows) = renderRow row ++ '\x0d' :: '\n' :: renderCsv rows := rfl

theorem length_le_renderRow (fs : List (List Char)) :
    fs.length ≤ (renderRow fs).length + 1 := by
  induction fs with
  | nil => simp [renderRow]
  | cons f fs ih =>
    cases fs with
    | nil => simp [renderRow]
    | cons g gs =>
      simp only [renderRow, List.length_cons, List.length_append] at *
      omega

theorem length_le_renderCsv (rows : List (List (List Char))) :
    rows.length ≤ (renderCsv rows).length := by
  induction rows with
  | nil => simp [renderCsv]
  | cons r rs ih =>
    simp only [renderCsv_cons, List.length_cons, List.length_append, List.length_cons]
    omega

theorem parseCsvFuel_renderCsv (rows : List (List (List Char)))
    (hne : ∀ row ∈ rows, row ≠ []) :
    ∀ fuel, rows.length ≤ fuel →
    parseCsvFuel fuel (renderCsv rows) = some rows := by
  induction rows with
  | nil => intro fuel _; cases fuel <;> simp [renderCsv, parseCsvFuel]
  | cons row rows ih =>
    intro fuel hfuel
    cases fuel with
    | zero => simp at hfuel
    | succ k =>
      rw [renderCsv_cons]
      cases hin : renderRow row ++ '\x0d' :: '\n' :: renderCsv rows with
      | nil => exact absurd hin (by simp)
      | cons i is =>
        rw [parseCsvFuel]
        have hlen : row.length ≤ is.length + 2 := by
          have h1 := length_le_renderRow row
          have h2 := congrArg List.length hin
          simp only [List.length_append, List.length_cons] at h2
          omega
        rw [← hin, parseRowCsv_renderRow row (hne row (by simp)) _ _ hlen]
        simp only
        rw [ih (fun r hr => hne r (by simp [hr])) k (by simpa using hfuel)]

/-- Full CSV round-trip: parsing a rendered CSV of nonempty rows recovers
exactly those rows. -/
theorem parseCsv_renderCsv (rows : List (List (List Char)))
    (hne : ∀ row ∈ rows, row ≠ []) :
    parseCsv (renderCsv rows) = some rows := by
  unfold parseCsv
  exact parseCsvFuel_renderCsv rows hne _ (by have := length_le_renderCsv rows; omega)

/-! ## Normalization does not change regex matches

`parse_datetime` normalizes its inputs before searching; these lemmas show
`searchPats` gives the same result on `normChars cs` as on `cs`, for patterns
whose predicates reject whitespace (all three patterns of the source). -/

theorem pyIsSpace_replNbsp (c : Char) : pyIsSpace (replNbsp c) = pyIsSpace c := by
  unfold replNbsp
  split
  · rename_i h
    have h1 : pyIsSpace ' ' = true := by decide
    have h2 : pyIsSpace c = true := by simp [pyIsSpace, h]
    rw [h1, h2]
  · rfl

theorem replNbsp_eq_self {c : Char} (h : pyIsSpace c = false) : replNbsp c = c := by
  unfold replNbsp
  split
  · rename_i h160
    have ht : pyIsSpace c = true := by simp [pyIsSpace, h160]
    rw [ht] at h
    exact Bool.noConfusion h
  · rfl

theorem pyWordsAcc_map_replNbsp (cs : List Char) : ∀ acc,
    pyWordsAcc (cs.map replNbsp) acc = pyWordsAcc cs acc := by
  induction cs with
  | nil => intro acc; rfl
  | cons c cs ih =>
    intro acc
    simp only [List.map_cons, pyWordsAcc, pyIsSpace_replNbsp]
    by_cases hsp : pyIsSpace c
    · simp [hsp, ih]
    · have hsp' : pyIsSpace c = false := by simpa using hsp
      simp [hsp', replNbsp_eq_self hsp', ih]

theorem pyWords_map_replNbsp (cs : List Char) :
    pyWords (cs.map replNbsp) = pyWords cs := pyWordsAcc_map_replNbsp cs []

theorem pyWordsAcc_cons_word (cs : List Char) : ∀ (a : Char) (acc : List Char),
    pyWordsAcc cs (a :: acc) =
      ((a :: acc).reverse ++ cs.takeWhile (fun d => !pyIsSpace d)) ::
        pyWords (cs.dropWhile (fun d => !pyIsSpace d)) := by
  induction cs with
  | nil => intro a acc; simp [pyWordsAcc, pyWords]
  | cons c cs ih =>
    intro a acc
    by_cases hsp : pyIsSpace c
    · simp [pyWordsAcc, pyWords, hsp, List.takeWhile_cons, List.dropWhile_cons]
    · have hsp' : pyIsSpace c = false := by simpa using hsp
      simp [pyWordsAcc, hsp', List.takeWhile_cons, List.dropWhile_cons, ih c (a :: acc)]

/-- The recursion equation of `str.split()` in `takeWhile`/`dropWhile` form. -/
theorem pyWords_cons (c : Char) (cs : List Char) :
    pyWords (c :: cs) =
      if pyIsSpace c then pyWords cs
      else (c :: cs.takeWhile (fun d => !pyIsSpace d)) ::
        pyWords (cs.dropWhile (fun d => !pyIsSpace d)) := by
  unfold pyWords
  by_cases hsp : pyIsSpace c
  · simp [pyWordsAcc, hsp]
  · simp only [pyWordsAcc, if_neg hsp, if_neg hsp, pyWordsAcc_cons_word cs c []]
    simp [pyWords]

theorem pyWords_mem (cs : List Char) : ∀ acc, (∀ c ∈ acc, pyIsSpace c = false) →
    ∀ w ∈ pyWordsAcc cs acc, w ≠ [] ∧ ∀ c ∈ w, pyIsSpace c = false := by
  induction cs with
  | nil =>
    intro acc hacc w hw
    by_cases hne : acc = ([] : List Char)
    · subst hne; simp [pyWordsAcc] at hw
    · simp only [pyWordsAcc, if_neg hne, List.mem_singleton] at hw
      subst hw
      constructor
      · simpa using hne
      · intro c hc
        rw [List.mem_reverse] at hc
        exact hacc c hc
  | cons c cs ih =>
    intro acc hacc w hw
    by_cases hsp : pyIsSpace c
    · simp only [pyWordsAcc, if_pos hsp] at hw
      by_cases hne : acc = ([] : List Char)
      · rw [if_pos hne] at hw
        exact ih [] (by simp) w hw
      · rw [if_neg hne] at hw
        rcases List.mem_cons.mp hw with hw | hw
        · subst hw
          exact ⟨by simpa using hne, fun d hd => hacc d (List.mem_reverse.mp hd)⟩
        · exact ih [] (by simp) w hw
    · simp only [pyWordsAcc, if_neg hsp] at hw
      have hsp' : pyIsSpace c = false := by simpa using hsp
      refine ih (c :: acc) ?_ w hw
      intro d hd
      rcases List.mem_cons.mp hd with h | h
      · subst h; exact hsp'
      · exact hacc d h

theorem pyWords_word (w : List Char) (hne : w ≠ [])
    (hns : ∀ c ∈ w, pyIsSpace c = false) : pyWords w = [w] := by
  cases w with
  | nil => exact absurd rfl hne
  | cons a t =>
    rw [pyWords_cons, if_neg (by simp [hns a (by simp)])]
    have ht := takeWhile_append_stop (fun d => !pyIsSpace d) t []
      (fun c hc => by simp [hns c (by simp [hc])]) (Or.inl rfl)
    rw [List.append_nil] at ht
    rw [ht.1, ht.2]
    rfl

theorem pyWords_word_append (w t : List Char) (hne : w ≠ [])
    (hns : ∀ c ∈ w, pyIsSpace c = false) :
    pyWords (w ++ ' ' :: t) = w :: pyWords t := by
  cases w with
  | nil => exact absurd rfl hne
  | cons a u =>
    rw [List.cons_append, pyWords_cons, if_neg (by simp [hns a (by simp)])]
    have hstop := takeWhile_append_stop (fun d => !pyIsSpace d) u (' ' :: t)
      (fun c hc => by simp [hns c (by simp [hc])])
      (Or.inr (show (fun d => !pyIsSpace d) ((' ' :: t).headD ' ') = false by
        simp only [List.headD_cons]; decide))
    rw [hstop.1, hstop.2]
    have hsps : pyWords (' ' :: t) = pyWords t := by
      rw [pyWords_cons, if_pos (by decide)]
    rw [hsps]

theorem pyWords_joinSpace (ws : List (List Char))
    (h : ∀ w ∈ ws, w ≠ [] ∧ ∀ c ∈ w, pyIsSpace c = false) :
    pyWords (joinSpace ws) = ws := by
  induction ws with
  | nil => rfl
  | cons w ws ih =>
    cases ws with
    | nil =>
      show pyWords w = [w]
      exact pyWords_word w (h w (by simp)).1 (h w (by simp)).2
    | cons w' ws' =>
      show pyWords (w ++ ' ' :: joinSpace (w' :: ws')) = _
      rw [pyWords_word_append w _ (h w (by simp)).1 (h w (by simp)).2,
        ih (fun v hv => h v (by simp [hv]))]

theorem matchPat_append (p : List (Char → Bool)) (w rest : List Char)
    (hp : ∀ pr ∈ p, ∀ c, pyIsSpace c = true → pr c = false)
    (hr : rest = [] ∨ pyIsSpace (rest.headD ' ') = true) :
    matchPat p (w ++ rest) = matchPat p w := by
  induction p generalizing w with
  | nil => simp [matchPat]
  | cons pr ps ih =>
    cases w with
    | nil =>
      rcases hr with h | h
      · simp [h]
      · cases rest with
        | nil => simp
        | cons r t =>
          simp only [List.headD_cons] at h
          have hpr : pr r = false := hp pr (by simp) r h
          simp [matchPat, hpr]
    | cons c w =>
      simp only [List.cons_append, matchPat, List.append_eq]
      rw [ih w (fun q hq => hp q (by simp [hq]))]

theorem tryPats_append (pats : List (List (Char → Bool))) (w rest : List Char)
    (hp : spaceRej pats)
    (hr : rest = [] ∨ pyIsSpace (rest.headD ' ') = true) :
    tryPats pats (w ++ rest) = tryPats pats w := by
  induction pats with
  | nil => rfl
  | cons p ps ih =>
    simp only [tryPats]
    rw [matchPat_append p w rest (hp p (by simp)).2 hr,
      ih (fun q hq => hp q (by simp [hq]))]

theorem tryPats_space_head (pats : List (List (Char → Bool))) (c : Char) (cs : List Char)
    (hp : spaceRej pats) (hsp : pyIsSpace c = true) :
    tryPats pats (c :: cs) = none := by
  induction pats with
  | nil => rfl
  | cons p ps ih =>
    simp only [tryPats]
    have hm : matchPat p (c :: cs) = none := by
      obtain ⟨hne, hrej⟩ := hp p (by simp)
      cases p with
      | nil => exact absurd rfl hne
      | cons pr prs => simp [matchPat, hrej pr (by simp) c hsp]
    rw [hm, ih (fun q hq => hp q (by simp [hq]))]

theorem searchPats_space_head (pats : List (List (Char → Bool))) (c : Char) (cs : List Char)
    (hp : spaceRej pats) (hsp : pyIsSpace c = true) :
    searchPats pats (c :: cs) = searchPats pats cs := by
  simp [searchPats, tryPats_space_head pats c cs hp hsp]

theorem searchPats_append (pats : List (List (Char → Bool))) (hp : spaceRej pats)
    (w rest : List Char) (hr : rest = [] ∨ pyIsSpace (rest.headD ' ') = true) :
    searchPats pats (w ++ rest) =
      match searchPats pats w with
      | some r => some r
      | none => searchPats pats rest := by
  induction w with
  | nil => simp [searchPats]
  | cons c w ih =>
    rw [List.cons_append]
    show (match tryPats pats (c :: (w ++ rest)) with
      | some r => some r
      | none => searchPats pats (w ++ rest)) = _
    rw [show c :: (w ++ rest) = (c :: w) ++ rest from rfl,
      tryPats_append pats (c :: w) rest hp hr, ih]
    show _ = (match (match tryPats pats (c :: w) with
      | some r => some r
      | none => searchPats pats w) with
      | some r => some r
      | none => searchPats pats rest)
    cases tryPats pats (c :: w) <;> simp

theorem searchPats_joinSpace (pats : List (List (Char → Bool))) (hp : spaceRej pats) :
    ∀ ws : List (List Char), (∀ w ∈ ws, ∀ c ∈ w, pyIsSpace c = false) →
    searchPats pats (joinSpace ws) = searchW pats ws := by
  intro ws
  induction ws with
  | nil => intro _; rfl
  | cons w ws ih =>
    intro h
    cases ws with
    | nil =>
      show searchPats pats w = _
      show _ = (match searchPats pats w with
        | some x => some x
        | none => none)
      cases searchPats pats w <;> simp
    | cons w' ws' =>
      show searchPats pats (w ++ ' ' :: joinSpace (w' :: ws')) = _
      rw [searchPats_append pats hp w (' ' :: joinSpace (w' :: ws'))
        (Or.inr (show pyIsSpace ((' ' :: joinSpace (w' :: ws')).headD ' ') = true by
          simp only [List.headD_cons]; decide))]
      rw [searchPats_space_head pats ' ' _ hp (by decide)]
      rw [ih (fun v hv => h v (by simp [hv]))]
      rfl

theorem dropWhile_head_false (p : Char → Bool) (cs : List Char) :
    ∀ r t, cs.dropWhile p = r :: t → p r = false := by
  induction cs with
  | nil => intro r t h; simp [List.dropWhile] at h
  | cons c cs ih =>
    intro r t h
    rw [List.dropWhile_cons] at h
    by_cases hc : p c
    · rw [if_pos hc] at h; exact ih r t h
    · rw [if_neg hc] at h
      cases h
      simpa using hc

theorem length_dropWhile_le' (p : Char → Bool) (cs : List Char) :
    (cs.dropWhile p).length ≤ cs.length := by
  induction cs with
  | nil => simp [List.dropWhile]
  | cons c cs ih =>
    rw [List.dropWhile_cons]
    split
    · exact le_trans ih (by simp)
    · simp

theorem searchPats_eq_searchW (pats : List (List (Char → Bool))) (hp : spaceRej pats) :
    ∀ n (cs : List Char), cs.length ≤ n →
    searchPats pats cs = searchW pats (pyWords cs) := by
  intro n
  induction n with
  | zero =>
    intro cs hcs
    have hnil : cs = [] := by
      cases cs with
      | nil => rfl
      | cons c t => simp at hcs
    subst hnil
    rfl
  | succ k ih =>
    intro cs hcs
    cases cs with
    | nil => rfl
    | cons c cs =>
      by_cases hsp : pyIsSpace c
      · rw [searchPats_space_head pats c cs hp hsp, pyWords_cons, if_pos hsp]
        exact ih cs (by simpa using hcs)
      · rw [pyWords_cons, if_neg hsp]
        set w := c :: cs.takeWhile (fun d => !pyIsSpace d) with hw
        set rest := cs.dropWhile (fun d => !pyIsSpace d) with hrest
        have hsplit : c :: cs = w ++ rest := by
          rw [hw, hrest, List.cons_append, List.takeWhile_append_dropWhile]
        have hrr : rest = [] ∨ pyIsSpace (rest.headD ' ') = true := by
          rw [hrest]
          cases hd : cs.dropWhile (fun d => !pyIsSpace d) with
          | nil => exact Or.inl rfl
          | cons r t =>
            right
            have hrf := dropWhile_head_false (fun d => !pyIsSpace d) cs r t hd
            simp only [List.headD_cons]
            simpa using hrf
        rw [hsplit, searchPats_append pats hp w rest hrr]
        have hlenrest : rest.length ≤ k := by
          have h1 : rest.length ≤ cs.length := by
            rw [hrest]
            exact length_dropWhile_le' _ _
          simp only [List.length_cons] at hcs
          omega
        rw [ih rest hlenrest]
        rfl

theorem searchPats_normChars (pats : List (List (Char → Bool))) (hp : spaceRej pats)
    (cs : List Char) : searchPats pats (normChars cs) = searchPats pats cs := by
  unfold normChars
  rw [pyWords_map_replNbsp]
  have hmem := pyWords_mem cs [] (by simp)
  rw [searchPats_joinSpace pats hp (pyWords cs)
    (fun w hw c hc => ((hmem w hw).2 c hc))]
  rw [searchPats_eq_searchW pats hp cs.length cs le_rfl]

theorem pyIsSpace_isDig {c : Char} (h : pyIsSpace c = true) : isDig c = false := by
  simp only [pyIsSpace] at h
  simp only [isDig]
  simp only [Bool.or_eq_true, Bool.and_eq_true, decide_eq_true_eq] at h
  simp only [Bool.and_eq_false_iff, decide_eq_false_iff_not]
  omega

theorem pyIsSpace_notDot {c : Char} (h : pyIsSpace c = true) : decide (c = '.') = false := by
  simp only [decide_eq_false_iff_not]
  intro hc
  subst hc
  exact absurd h (by decide)

theorem pyIsSpace_notColon {c : Char} (h : pyIsSpace c = true) : decide (c = ':') = false := by
  simp only [decide_eq_false_iff_not]
  intro hc
  subst hc
  exact absurd h (by decide)

theorem spaceRej_date : spaceRej [datePat] := by
  intro p hp
  simp only [List.mem_singleton] at hp
  subst hp
  refine ⟨by simp [datePat], ?_⟩
  intro pr hpr c hc
  simp only [datePat, List.mem_cons, List.not_mem_nil, or_false] at hpr
  rcases hpr with h | h | h | h | h | h | h | h | h | h <;> subst h <;>
    first
      | exact pyIsSpace_isDig hc
      | exact pyIsSpace_notDot hc

theorem spaceRej_time : spaceRej [timePat2, timePat1] := by
  intro p hp
  simp only [List.mem_cons, List.not_mem_nil, or_false] at hp
  rcases hp with h | h <;> subst h
  · refine ⟨by simp [timePat2], ?_⟩
    intro pr hpr c hc
    simp only [timePat2, List.mem_cons, List.not_mem_nil, or_false] at hpr
    rcases hpr with h | h | h | h | h <;> subst h <;>
      first
        | exact pyIsSpace_isDig hc
        | exact pyIsSpace_notColon hc
  · refine ⟨by simp [timePat1], ?_⟩
    intro pr hpr c hc
    simp only [timePat1, List.mem_cons, List.not_mem_nil, or_false] at hpr
    rcases hpr with h | h | h | h <;> subst h <;>
      first
        | exact pyIsSpace_isDig hc
        | exact pyIsSpace_notColon hc

/-- Normalization does not change the first `DATE_RE` match. -/
theorem searchDate_normChars (cs : List Char) : searchDate (normChars cs) = searchDate cs := by
  unfold searchDate
  rw [searchPats_normChars _ spaceRej_date]

/-- Normalization does not change the first `TIME_RE` match. -/
theorem searchTime_normChars (cs : List Char) : searchTime (normChars cs) = searchTime cs := by
  unfold searchTime
  rw [searchPats_normChars _ spaceRej_time]

theorem norm_data (s : String) : (norm s).data = normChars s.data := rfl

theorem searchDate_norm (s : String) : searchDate (norm s).data = searchDate s.data := by
  rw [norm_data, searchDate_normChars]

theorem searchTime_norm (s : String) : searchTime (norm s).data = searchTime s.data := by
  rw [norm_data, searchTime_normChars]

/-! ## Characterizations of `parse_datetime` and the row parser -/

theorem mkDatetime_ok {y m d hh mi : Nat} {x : PyDateTime}
    (h : mkDatetime y m d hh mi = Except.ok x) :
    x = ⟨y, m, d, hh, mi⟩ ∧ validDT y m d hh mi = true := by
  unfold mkDatetime at h
  split at h
  · rename_i hv
    cases h
    exact ⟨rfl, hv⟩
  · exact absurd h (by simp)

/-- `parse_datetime` in terms of the raw (unnormalized) inputs: the searches
see through `norm`. -/
theorem parse_datetime_raw (dts : String) (tt : Option String) :
    parse_datetime dts tt =
      match searchDate dts.data with
      | none => Except.ok none
      | some (d, m, y) =>
        (mkDatetime y m d ((searchTime (tt.getD "").data).getD (0, 0)).1
          ((searchTime (tt.getD "").data).getD (0, 0)).2).map some := by
  unfold parse_datetime
  simp only [searchDate_norm, searchTime_norm]
  cases hs : searchDate dts.data with
  | none => rfl
  | some v =>
    obtain ⟨d, m, y⟩ := v
    simp only
    cases mkDatetime y m d ((searchTime (tt.getD "").data).getD (0, 0)).1
      ((searchTime (tt.getD "").data).getD (0, 0)).2 <;> rfl

/-- Everything true of an emitted record, extracted from the shape of the
loop body. -/
theorem parseCells_emit {dur : Int} {enr : Bool} {f : String → Except Unit Node}
    {tds : List Node} {s e : PyDateTime} {rec : MatchRecord}
    (h : parseCells dur enr f tds = Except.ok (some (s, e, rec))) :
    7 ≤ tds.length ∧
    searchDate (cellTxt tds 1).data ≠ none ∧
    parse_datetime (cellTxt tds 1)
      (some (if cellTxt tds 2 = "" then "19:30" else cellTxt tds 2)) =
      Except.ok (some s) ∧
    addMinutes s dur = Except.ok e ∧
    rec.startTime = fmt_time s ∧ rec.endTime = fmt_time e ∧
    rec.startDate = fmt_date s ∧ rec.endDate = fmt_date e := by
  unfold parseCells at h
  split at h
  · exact absurd h (by simp)
  · rename_i hlen
    simp only at h
    split at h
    · exact absurd h (by simp)
    · rename_i hdate
      split at h
      · exact absurd h (by simp)
      · exact absurd h (by simp)
      · rename_i start_dt hpd
        split at h
        · exact absurd h (by simp)
        · rename_i end_dt hadd
          simp only [Except.ok.injEq, Option.some.injEq, Prod.mk.injEq] at h
          obtain ⟨hs, he, hrec⟩ := h
          subst hs
          subst he
          subst hrec
          refine ⟨by omega, by simp [hdate], hpd, hadd, rfl, rfl, rfl, rfl⟩

/-! ## Characterization of the address-collection loop (for C8) -/

theorem collectAddrLines_char (ns : List Node) : ∀ acc : List String, acc.length < 3 →
    collectAddrLines ns acc =
      acc ++ ((ns.takeWhile (fun n => !n.isHeading)).filterMap blockText).take
        (3 - acc.length) := by
  induction ns with
  | nil => intro acc _; simp [collectAddrLines]
  | cons n ns ih =>
    intro acc hacc
    by_cases hh : n.isHeading
    · simp [collectAddrLines, hh, List.takeWhile_cons]
    · have hh' : n.isHeading = false := by simpa using hh
      have htw : (n :: ns).takeWhile (fun n => !n.isHeading) =
          n :: ns.takeWhile (fun n => !n.isHeading) := by
        simp [List.takeWhile_cons, hh']
      rw [htw, List.filterMap_cons]
      by_cases hb : n.isBlock
      · by_cases ht : norm (getTextSp n) = ""
        · have hbt : blockText n = none := by simp [blockText, hb, ht]
          have hstep : collectAddrLines (n :: ns) acc = collectAddrLines ns acc := by
            simp [collectAddrLines, hh', hb, ht, show ¬ 3 ≤ acc.length by omega]
          rw [hbt, hstep]
          exact ih acc hacc
        · have hbt : blockText n = some (norm (getTextSp n)) := by
            simp [blockText, hb, ht]
          rw [hbt]
          by_cases h3 : 3 ≤ acc.length + 1
          · have hstep : collectAddrLines (n :: ns) acc = acc ++ [norm (getTextSp n)] := by
              simp [collectAddrLines, hh', hb, ht, show 3 ≤ acc.length + 1 from h3]
            rw [hstep]
            have h31 : 3 - acc.length = 1 := by omega
            rw [h31, List.take_succ_cons, List.take_zero]
          · have hstep : collectAddrLines (n :: ns) acc =
                collectAddrLines ns (acc ++ [norm (getTextSp n)]) := by
              simp [collectAddrLines, hh', hb, ht, show ¬ 3 ≤ acc.length + 1 from h3]
            rw [hstep, ih (acc ++ [norm (getTextSp n)]) (by simp; omega)]
            have h3a : 3 - acc.length = (3 - (acc.length + 1)) + 1 := by omega
            rw [h3a, List.take_succ_cons]
            simp
      · have hbt : blockText n = none := by simp [blockText, hb]
        have hstep : collectAddrLines (n :: ns) acc = collectAddrLines ns acc := by
          simp [collectAddrLines, hh', hb, show ¬ 3 ≤ acc.length by omega]
        rw [hbt, hstep]
        exact ih acc hacc

/-! ## The row parser reads only cells 1-7 (for C10) -/

theorem parseCells_ext (dur : Int) (enr : Bool) (f : String → Except Unit Node)
    (l1 l2 : List Node)
    (h7a : 7 ≤ l1.length) (h7b : 7 ≤ l2.length)
    (hcells : ∀ i, 1 ≤ i → i ≤ 7 → l1[i]? = l2[i]?) :
    parseCells dur enr f l1 = parseCells dur enr f l2 := by
  have hgetD : ∀ i, 1 ≤ i → i ≤ 7 →
      l1.getD i (Node.text "") = l2.getD i (Node.text "") := by
    intro i hi1 hi7
    rw [List.getD_eq_getElem?_getD, List.getD_eq_getElem?_getD, hcells i hi1 hi7]
  have hcell : ∀ i, 1 ≤ i → i ≤ 7 → cellTxt l1 i = cellTxt l2 i := by
    intro i hi1 hi7
    unfold cellTxt
    rw [hgetD i hi1 hi7]
  have h8 : (8 ≤ l1.length) ↔ (8 ≤ l2.length) := by
    constructor
    · intro h8a
      have h1 : l1[7]? = some l1[7] := List.getElem?_eq_getElem (by omega)
      have h2 : l2[7]? = some l1[7] := by rw [← hcells 7 (by omega) (by omega)]; exact h1
      obtain ⟨hlt, _⟩ := List.getElem?_eq_some_iff.mp h2
      omega
    · intro h8b
      have h1 : l2[7]? = some l2[7] := List.getElem?_eq_getElem (by omega)
      have h2 : l1[7]? = some l2[7] := by rw [hcells 7 (by omega) (by omega)]; exact h1
      obtain ⟨hlt, _⟩ := List.getElem?_eq_some_iff.mp h2
      omega
  unfold parseCells
  rw [if_neg (by omega : ¬ l1.length < 7), if_neg (by omega : ¬ l2.length < 7)]
  simp only [hcell 1 (by omega) (by omega), hcell 2 (by omega) (by omega),
    hgetD 3 (by omega) (by omega),
    if_pos (by omega : 5 ≤ l1.length), if_pos (by omega : 5 ≤ l2.length),
    if_pos (by omega : 6 ≤ l1.length), if_pos (by omega : 6 ≤ l2.length),
    if_pos (by omega : 7 ≤ l1.length), if_pos (by omega : 7 ≤ l2.length),
    hcell 4 (by omega) (by omega), hcell 5 (by omega) (by omega),
    hcell 6 (by omega) (by omega)]
  by_cases h8a : 8 ≤ l1.length
  · rw [if_pos h8a, if_pos (h8.mp h8a), hcell 7 (by omega) (by omega)]
  · rw [if_neg h8a, if_neg (fun hc => h8a (h8.mpr hc))]

/-- `parse_datetime` when the raw date-text has a `DATE_RE` match. -/
theorem parse_datetime_raw_some (dts : String) (tt : Option String) (d m y : Nat)
    (hd : searchDate dts.data = some (d, m, y)) :
    parse_datetime dts tt =
      (mkDatetime y m d ((searchTime (tt.getD "").data).getD (0, 0)).1
        ((searchTime (tt.getD "").data).getD (0, 0)).2).map some := by
  rw [parse_datetime_raw, hd]

/-- Hour and minute of a timestamp produced by `parse_datetime`: the first
`TIME_RE` match of the raw time text, defaulting to 0:00. -/
theorem parse_datetime_ok_time {dts tts : String} {s : PyDateTime}
    (h : parse_datetime dts (some tts) = Except.ok (some s)) :
    (s.hour, s.minute) = (searchTime tts.data).getD (0, 0) := by
  rw [parse_datetime_raw] at h
  cases hd : searchDate dts.data with
  | none => rw [hd] at h; exact absurd h (by simp)
  | some v =>
    obtain ⟨d, m, y⟩ := v
    rw [hd] at h
    simp only [Option.getD_some] at h
    cases hmk : mkDatetime y m d ((searchTime tts.data).getD (0, 0)).1
        ((searchTime tts.data).getD (0, 0)).2 with
    | error u => rw [hmk] at h; exact absurd h (by simp [Except.map])
    | ok x =>
      rw [hmk] at h
      simp only [Except.map, Except.ok.injEq, Option.some.injEq] at h
      obtain ⟨hx, _⟩ := mkDatetime_ok hmk
      rw [← h, hx]

/-! # The claims -/

/-- C1: the spec's §8 scenario row — cells `Fr`, `03.10.2025`, `19:30 Uhr`, a
linked venue cell with text `TU`, `12`, `Team A`, `Team B`, `3:1` — parsed
with duration 90 and enrichment disabled yields exactly the record `recC1`:
Subject `Team A vs. Team B`, Start `10/03/2025` `19:30`, End `10/03/2025`
`21:00`, Description `Spiel Nr.: 12 | Ergebnis: 3:1`, Location `TU`. -/
theorem c1_scenario_row :
    parseRow 90 false noFetch rowC1 = Except.ok (some recC1) := by decide

/-- C2: a table row produces a record only if it has at least 7 cells and its
date cell (index 1) contains a `DD.MM.YYYY` pattern; a row failing either test
never produces a record, whatever its other cells hold. -/
theorem c2_row_validity_gate (dur : Int) (enr : Bool) (f : String → Except Unit Node)
    (tr : Node) (rec : MatchRecord)
    (h : parseRow dur enr f tr = Except.ok (some rec)) :
    7 ≤ (findTds tr).length ∧ searchDate (cellTxt (findTds tr) 1).data ≠ none := by
  unfold parseRow parseRowFull at h
  cases hp : parseCells dur enr f (findTds tr) with
  | error u => rw [hp] at h; exact absurd h (by simp [Except.map])
  | ok v =>
    rw [hp] at h
    cases v with
    | none => exact absurd h (by simp [Except.map])
    | some t =>
      obtain ⟨s, e', r⟩ := t
      have em := parseCells_emit hp
      exact ⟨em.1, em.2.1⟩

/-- Witness for C2 at the concrete scenario row. -/
theorem c2_witness :
    7 ≤ (findTds rowC1).length ∧ searchDate (cellTxt (findTds rowC1) 1).data ≠ none :=
  c2_row_validity_gate 90 false noFetch rowC1 recC1 (by decide)

/-- C3 is refuted: `"03.10.2025"` contains a valid `DD.MM.YYYY` substring, yet
with time-text `"99:99"` the resolver raises `ValueError` (modelled
`Except.error ()`) instead of producing a timestamp with that day/month/year. -/
theorem c3_counterexample :
    parse_datetime "03.10.2025" (some "99:99") = Except.error () := by decide

/-- C3 (amended): when the first `DD.MM.YYYY` match of the date-text together
with the time-text's first `H(H):MM` match (defaulting to 0:00) forms a valid
datetime, the resolver produces a timestamp whose day, month and year are
exactly those of that first match; for every date-text without a `DD.MM.YYYY`
pattern match it signals absence (returns no value). -/
theorem c3_parse_datetime_amended :
    (∀ (dts : String) (tt : Option String) (d m y : Nat),
      searchDate dts.data = some (d, m, y) →
      validDT y m d ((searchTime (tt.getD "").data).getD (0, 0)).1
        ((searchTime (tt.getD "").data).getD (0, 0)).2 = true →
      ∃ x, parse_datetime dts tt = Except.ok (some x) ∧
        x.day = d ∧ x.month = m ∧ x.year = y) ∧
    (∀ (dts : String) (tt : Option String),
      searchDate dts.data = none → parse_datetime dts tt = Except.ok none) := by
  constructor
  · intro dts tt d m y hd hv
    rw [parse_datetime_raw_some dts tt d m y hd]
    refine ⟨⟨y, m, d, ((searchTime (tt.getD "").data).getD (0, 0)).1,
      ((searchTime (tt.getD "").data).getD (0, 0)).2⟩, ?_, rfl, rfl, rfl⟩
    unfold mkDatetime
    rw [if_pos hv]
    rfl
  · intro dts tt hd
    rw [parse_datetime_raw, hd]

/-- Witness for C3 (amended) at concrete inputs. -/
theorem c3_witness :
    (∃ x, parse_datetime "am 03.10.2025" (some "19:30 Uhr") = Except.ok (some x) ∧
      x.day = 3 ∧ x.month = 10 ∧ x.year = 2025) ∧
    parse_datetime "Termin offen" none = Except.ok none :=
  ⟨c3_parse_datetime_amended.1 "am 03.10.2025" (some "19:30 Uhr") 3 10 2025
    (by decide) (by decide),
   c3_parse_datetime_amended.2 "Termin offen" none (by decide)⟩

/-- C4: for every emitted record, the `"19:30"` default applies exactly when
the normalized time cell is empty (giving Start Time `19:30`); a nonempty time
cell with no `H(H):MM` pattern resolves to Start Time `00:00`, not `19:30`. -/
theorem c4_time_default (dur : Int) (enr : Bool) (f : String → Except Unit Node)
    (tr : Node) (s e : PyDateTime) (rec : MatchRecord)
    (h : parseRowFull dur enr f tr = Except.ok (some (s, e, rec))) :
    (cellTxt (findTds tr) 2 = "" → rec.startTime = "19:30") ∧
    (cellTxt (findTds tr) 2 ≠ "" → searchTime (cellTxt (findTds tr) 2).data = none →
      rec.startTime = "00:00") := by
  unfold parseRowFull at h
  obtain ⟨h7, hne, hpd, hadd, hst, _, _, _⟩ := parseCells_emit h
  constructor
  · intro hemp
    rw [hemp, if_pos rfl] at hpd
    have hhm := parse_datetime_ok_time hpd
    have hts : (searchTime ("19:30" : String).data).getD (0, 0) = (19, 30) := by decide
    rw [hts] at hhm
    have hh : s.hour = 19 := congrArg Prod.fst hhm
    have hmin : s.minute = 30 := congrArg Prod.snd hhm
    rw [hst]
    unfold fmt_time
    rw [hh, hmin]
    rfl
  · intro hne2 hsearch
    rw [if_neg hne2] at hpd
    have hhm := parse_datetime_ok_time hpd
    rw [hsearch] at hhm
    have hh : s.hour = 0 := congrArg Prod.fst hhm
    have hmin : s.minute = 0 := congrArg Prod.snd hhm
    rw [hst]
    unfold fmt_time
    rw [hh, hmin]
    rfl

/-- Witness for C4 at the scenario row with an empty time cell. -/
theorem c4_witness :
    (cellTxt (findTds rowC4) 2 = "" → recC4.startTime = "19:30") ∧
    (cellTxt (findTds rowC4) 2 ≠ "" → searchTime (cellTxt (findTds rowC4) 2).data = none →
      recC4.startTime = "00:00") :=
  c4_time_default 120 false noFetch rowC4 startC1 endC4 recC4 (by decide)

/-- C5: for every emitted record and every configured duration (0 included),
the end timestamp is the start timestamp plus the duration in minutes. -/
theorem c5_end_eq_start_plus_duration (dur : Int) (enr : Bool)
    (f : String → Except Unit Node) (tr : Node)
    (s e : PyDateTime) (rec : MatchRecord)
    (h : parseRowFull dur enr f tr = Except.ok (some (s, e, rec))) :
    (minutesOfDT e : Int) = (minutesOfDT s : Int) + dur := by
  unfold parseRowFull at h
  exact minutesOfDT_addMinutes s e dur (parseCells_emit h).2.2.2.1

/-- Witness for C5 at the scenario row with duration 90. -/
theorem c5_witness : (minutesOfDT endC1 : Int) = (minutesOfDT startC1 : Int) + 90 :=
  c5_end_eq_start_plus_duration 90 false noFetch rowC1 startC1 endC1 recC1 (by decide)

/-- C6 is refuted: the command line passes `--duration` through `type=int`
unvalidated, so duration 0 is accepted, and then the emitted record has end
equal to start, not greater. -/
theorem c6_counterexample :
    parseRowFull 0 false noFetch rowC1 = Except.ok (some (startC1, startC1, recC6)) ∧
    ¬ minutesOfDT startC1 < minutesOfDT startC1 :=
  ⟨by decide, by omega⟩

/-- C6 (amended): for every emitted record, when the configured duration is
positive the end timestamp is strictly greater than the start timestamp. -/
theorem c6_end_gt_start_of_pos_duration (dur : Int) (enr : Bool)
    (f : String → Except Unit Node) (tr : Node)
    (s e : PyDateTime) (rec : MatchRecord)
    (hpos : 0 < dur)
    (h : parseRowFull dur enr f tr = Except.ok (some (s, e, rec))) :
    (minutesOfDT s : Int) < (minutesOfDT e : Int) := by
  unfold parseRowFull at h
  have := minutesOfDT_addMinutes s e dur (parseCells_emit h).2.2.2.1
  omega

/-- Witness for C6 (amended) at the scenario row with duration 90. -/
theorem c6_witness : (minutesOfDT startC1 : Int) < (minutesOfDT endC1 : Int) :=
  c6_end_gt_start_of_pos_duration 90 false noFetch rowC1 startC1 endC1 recC1
    (by omega) (by decide)

/-- C7 is refuted: `cellC7`'s venue page fetch succeeds and the page has no
`Hallenadresse` heading — one of the claim's failure modes — yet the enricher
returns `"ABCD – AB CD"` — the raw normalized cell text `"AB CD"` prefixed
with the link code — not exactly the raw cell text. -/
theorem c7_counterexample :
    hall_address_from_cell fetchC7 cellC7 ≠ norm (getTextSp cellC7) ∧
    hall_address_from_cell fetchC7 cellC7 = "ABCD – AB CD" ∧
    norm (getTextSp cellC7) = "AB CD" := by
  refine ⟨?_, by decide, by decide⟩
  decide

/-- C7 (amended): with no link or an empty `href`, or a failing fetch, the
enricher returns exactly the raw normalized cell text; when the fetch succeeds
but no marker heading is found it returns the raw normalized cell text,
possibly prefixed with the link text and an en dash (exactly when the joined
stripped link text is nonempty and not a substring of the cell text).  The
failure is absorbed: the function is total and returns a plain string. -/
theorem c7_fallback_amended (f : String → Except Unit Node) (cell : Node) :
    (findA cell = none → hall_address_from_cell f cell = norm (getTextSp cell)) ∧
    (∀ a, findA cell = some a → getHref a = none →
      hall_address_from_cell f cell = norm (getTextSp cell)) ∧
    (∀ a href, findA cell = some a → getHref a = some href →
      f href = Except.error () →
      hall_address_from_cell f cell = norm (getTextSp cell)) ∧
    (∀ a href doc, findA cell = some a → getHref a = some href →
      f href = Except.ok doc → hallLines doc = [] →
      hall_address_from_cell f cell =
        (if norm (getTextStrip a) ≠ "" ∧
            ¬ containsSub (norm (getTextStrip a)).data (norm (getTextSp cell)).data then
          norm (getTextStrip a) ++ " – " ++ norm (getTextSp cell)
        else norm (getTextSp cell))) := by
  refine ⟨?_, ?_, ?_, ?_⟩
  · intro hf
    unfold hall_address_from_cell
    simp only [hf]
  · intro a hf hh
    unfold hall_address_from_cell
    simp only [hf, hh]
  · intro a href hf hh hfe
    unfold hall_address_from_cell
    simp only [hf, hh, hfe]
  · intro a href doc hf hh hfe hl
    unfold hall_address_from_cell
    simp only [hf, hh, hfe, hl, List.isEmpty_nil, if_true]
    by_cases hc : norm (getTextStrip a) ≠ "" ∧
        ¬ containsSub (norm (getTextStrip a)).data (norm (getTextSp cell)).data
    · have hb1 : containsSub (norm (getTextStrip a)).data (norm (getTextSp cell)).data =
          false := by simpa using hc.2
      rw [if_pos (by simp [hc.1, hb1]), if_pos hc]
    · rw [if_neg ?_, if_neg hc]
      intro hb
      simp only [Bool.and_eq_true, decide_eq_true_eq, Bool.not_eq_true'] at hb
      exact hc ⟨hb.1, by simp [hb.2]⟩

/-- Witness for C7 (amended): a failing fetch at the scenario's venue cell
falls back to the raw normalized cell text. -/
theorem c7_witness : hall_address_from_cell noFetch cellTU = norm (getTextSp cellTU) :=
  (c7_fallback_amended noFetch cellTU).2.2.1 aTU "/hall?id=7" rfl rfl rfl

/-- C8 is refuted: on `docC8` the `h2` marker heading is followed by a
lower-level `h3` heading and then a paragraph; the claim's
equal-or-higher-level rule would pass the `h3` and collect the paragraph (as
`hallLinesLevelAware`, written from the spec's words, does), but the code
stops at any `h1`-`h4` heading and collects nothing. -/
theorem c8_counterexample :
    hallLines docC8 = [] ∧ hallLinesLevelAware docC8 = ["Beispielstr. 1"] := by
  refine ⟨by decide, by decide⟩

/-- C8 (amended): the collector takes at most 3 nonempty block fragments
(`p`/`div`/`address`) following the marker heading in document order, and
stops early exactly at the first subsequent heading of any level `h1`-`h4`
(not only equal-or-higher than the marker). -/
theorem c8_collect_amended :
    (∀ doc : Node, (hallLines doc).length ≤ 3) ∧
    (∀ (doc : Node) (ns : List Node), afterMarker doc.descendants = some ns →
      hallLines doc =
        ((ns.takeWhile (fun n => !n.isHeading)).filterMap blockText).take 3) := by
  have hchar : ∀ ns : List Node,
      collectAddrLines ns [] =
        ((ns.takeWhile (fun n => !n.isHeading)).filterMap blockText).take 3 := by
    intro ns
    have := collectAddrLines_char ns [] (by simp)
    simpa using this
  constructor
  · intro doc
    unfold hallLines
    cases ham : afterMarker doc.descendants with
    | none => simp
    | some ns =>
      show (collectAddrLines ns []).length ≤ 3
      rw [hchar ns, List.length_take]
      omega
  · intro doc ns ham
    unfold hallLines
    rw [ham]
    exact hchar ns

/-- Witness for C8 (amended) on a page with four block fragments after the
marker: exactly the first three are collected. -/
theorem c8_witness :
    hallLines docC8W =
      ((nsC8.takeWhile (fun n => !n.isHeading)).filterMap blockText).take 3 :=
  c8_collect_amended.2 docC8W nsC8 rfl

/-- C9: writing any list of records and reading the CSV text back yields
exactly one header row (the 9 fixed column names in order) followed by one
row per record with its 9 fields in the same order. -/
theorem c9_csv_roundtrip (recs : List MatchRecord) :
    parseCsv (write_csv recs).data =
      some ((csvFieldnames.map String.data) ::
        recs.map (fun r => (recordFields r).map String.data)) := by
  have hdata : (write_csv recs).data = renderCsv ((csvFieldnames.map String.data) ::
      recs.map (fun r => (recordFields r).map String.data)) := rfl
  rw [hdata, parseCsv_renderCsv]
  intro row hrow
  rcases List.mem_cons.mp hrow with h | h
  · subst h; simp [csvFieldnames]
  · obtain ⟨r, _, hr⟩ := List.mem_map.mp h
    rw [← hr]
    simp [recordFields]

/-- C10: two rows with at least 7 cells each and identical cells at indices
1 through 7 are parsed identically, whatever their weekday cell (index 0) and
any cells from index 8 on contain. -/
theorem c10_only_cells_one_to_seven_matter (dur : Int) (enr : Bool)
    (f : String → Except Unit Node) (tr1 tr2 : Node)
    (h7a : 7 ≤ (findTds tr1).length) (h7b : 7 ≤ (findTds tr2).length)
    (hcells : ∀ i, 1 ≤ i → i ≤ 7 → (findTds tr1)[i]? = (findTds tr2)[i]?) :
    parseRow dur enr f tr1 = parseRow dur enr f tr2 := by
  unfold parseRow parseRowFull
  rw [parseCells_ext dur enr f (findTds tr1) (findTds tr2) h7a h7b hcells]

/-- Witness for C10: two concrete rows differing in the weekday cell and an
extra ninth cell parse identically. -/
theorem c10_witness :
    parseRow 120 false noFetch rowC10a = parseRow 120 false noFetch rowC10b :=
  c10_only_cells_one_to_seven_matter 120 false noFetch rowC10a rowC10b
    (by decide) (by decide)
    (fun i h1 h7 => by interval_cases i <;> rfl)

end NuLiga
